import Mathlib

/-!
# Verification of the aggregation-and-statistics core of `analizador-consumo`

Shallow embedding of the pure computation layer of the repository
(`src/Api/routes/consumo_actual.py`, `src/Api/routes/consumo_historico.py`,
`src/Api/routes/catalogos.py`, `src/Vista/app.py`): descriptive statistics,
group-by summation, outlier detection, least-squares trend slope, catalog
listing and the UF→region geo broadcast.

Numeric columns are embedded as `ℚ` (exact arithmetic standing for the
floating-point values of the source); a pandas `NaN` outcome is embedded as
`Option.none`.  Rows whose grouping/dimension cell may be null carry an
`Option` key.
-/

namespace Analizador

/-- Arithmetic mean of a numeric column, as computed by `pandas.Series.mean`
(`float(s.mean())` in `estadisticas`).  Division by zero (empty input) is the
`NaN` case, guarded by the caller `estadisticas` below. -/
def mediaQ (s : List ℚ) : ℚ := s.sum / s.length

/-- `pandas.Series.median`: sort the values; take the middle element when the
length is odd, the average of the two middle elements when it is even
(`float(s.median())` in `estadisticas`). -/
def medianaQ (s : List ℚ) : ℚ :=
  let t := s.insertionSort (· ≤ ·)
  let n := t.length
  if n % 2 = 1 then t.getD (n / 2) 0
  else (t.getD (n / 2 - 1) 0 + t.getD (n / 2) 0) / 2

/-- `pandas.Series.min` (`float(s.min())` in `estadisticas`); the empty case
(`NaN`) is guarded by the caller. -/
def minQ (s : List ℚ) : ℚ :=
  match s with
  | [] => 0
  | a :: t => t.foldl min a

/-- `pandas.Series.max` (`float(s.max())` in `estadisticas`); the empty case
(`NaN`) is guarded by the caller. -/
def maxQ (s : List ℚ) : ℚ :=
  match s with
  | [] => 0
  | a :: t => t.foldl max a

/-- Sample variance: the square of `pandas.Series.std` (default `ddof=1`,
denominator `n−1`).  The standard deviation itself is the (generally
irrational) square root of this value, so the embedding carries the square;
`none` is the `NaN` that pandas returns when `n ≤ 1` (`0/0`, resp. empty). -/
def sampleVar (s : List ℚ) : Option ℚ :=
  if 2 ≤ s.length then
    some ((s.map (fun x => (x - mediaQ s) ^ 2)).sum / ((s.length : ℚ) - 1))
  else none

/-- Sum of the implicit regressor `x = 0, 1, ..., n−1` built by
`np.arange(len(s))` in `tendencia` (`consumo_historico.py`). -/
def Sx (n : ℕ) : ℚ := ∑ i in Finset.range n, (i : ℚ)

/-- Sum of squares of the implicit regressor `x = 0..n−1`. -/
def Sxx (n : ℕ) : ℚ := ∑ i in Finset.range n, (i : ℚ) ^ 2

/-- Sum of the dependent values `y = s.values` indexed by position. -/
def Sy (s : List ℚ) : ℚ := ∑ i in Finset.range s.length, s.getD i 0

/-- Sum of the cross products `x_i * y_i`. -/
def Sxy (s : List ℚ) : ℚ := ∑ i in Finset.range s.length, (i : ℚ) * s.getD i 0

/-- The slope `m` returned by `np.polyfit(x, y, 1)` with `x = arange(len(s))`:
the ordinary-least-squares solution of the degree-1 normal equations,
`m = (n·Σxy − Σx·Σy) / (n·Σx² − (Σx)²)`.  For `n < 2` the denominator is `0`
and NumPy's fit is degenerate (rank-deficient, `RankWarning`); the `ℚ`
division-by-zero convention returns `0` there. -/
def polyfitSlope (s : List ℚ) : ℚ :=
  ((s.length : ℚ) * Sxy s - Sx s.length * Sy s) /
    ((s.length : ℚ) * Sxx s.length - Sx s.length ^ 2)

/-- The error the spec's trend contract names for series of fewer than two
points.  The source `tendencia` has no such error path. -/
inductive TrendError where
  | insufficientData
  deriving DecidableEq, Repr

/-- `tendencia(df)` from `src/Api/routes/consumo_historico.py` lines 15–28:
`m, _ = np.polyfit(np.arange(len(s)), s.values, 1); return {"pendiente": m}`.
The `Except` result type carries the spec's expected failure mode; the source
applies `np.polyfit` unconditionally, so every input — including series with
fewer than two points — takes the `Except.ok` branch. -/
def tendencia (s : List ℚ) : Except TrendError ℚ := Except.ok (polyfitSlope s)

/-- Modelled from the spec: mean of the implicit regressor `x = 0..n−1`,
for the closed form `slope = cov(x,y)/var(x)` of §4.5. -/
def xbarSpec (n : ℕ) : ℚ := Sx n / n

/-- Modelled from the spec: mean of the dependent values. -/
def ybarSpec (s : List ℚ) : ℚ := Sy s / s.length

/-- Modelled from the spec: sample covariance `cov(x, y)` of §4.5's closed
form, with `x = 0..n−1`. -/
def covSpec (s : List ℚ) : ℚ :=
  (∑ i in Finset.range s.length,
      ((i : ℚ) - xbarSpec s.length) * (s.getD i 0 - ybarSpec s)) /
    ((s.length : ℚ) - 1)

/-- Modelled from the spec: sample variance `var(x)` of §4.5's closed form. -/
def varxSpec (n : ℕ) : ℚ :=
  (∑ i in Finset.range n, ((i : ℚ) - xbarSpec n) ^ 2) / ((n : ℚ) - 1)

/-- Modelled from the spec: `slope = cov(x,y)/var(x)`. -/
def slopeSpec (s : List ℚ) : ℚ := covSpec s / varxSpec s.length

/-- `df.groupby(col)["Consumo"].sum()` as used by `serie_industrial`
(`consumo_actual.py` line 39) and `df_bar` (`Vista/app.py` lines 353–357).
A row is a pair of grouping key and measure; a null (`NaN`) grouping cell is
`none`.  pandas `groupby` keeps its default `dropna=True` and `sort=True` at
both call sites: rows whose key is null are dropped, and the result is keyed
by the sorted distinct non-null keys, each with the plain sum of the measure
over its rows. -/
def groupSum {K : Type} [LinearOrder K] (records : List (Option K × ℚ)) :
    List (K × ℚ) :=
  ((records.filterMap Prod.fst).dedup.insertionSort (· ≤ ·)).map
    (fun k => (k, ((records.filter (fun r => r.1 = some k)).map Prod.snd).sum))

/-- `sorted(df[col].dropna().unique().tolist())` as in `catalogo_regioes` and
`catalogo_setores` (`src/Api/routes/catalogos.py`): drop the null cells, keep
the distinct values (first occurrence order, as pandas `unique` does), then
sort ascending (Python `sorted` on strings is lexicographic, embedded as a
comparison sort under `≤`). -/
def distinct_values (l : List (Option String)) : List String :=
  ((l.filterMap id).dedup).insertionSort (· ≤ ·)

/-- The static `uf_to_regiao` dict of `src/Vista/app.py` lines 520–527, in
its source (insertion) order. -/
def uf_to_regiao : List (String × String) :=
  [("AC", "Norte"), ("AP", "Norte"), ("AM", "Norte"), ("PA", "Norte"),
   ("RO", "Norte"), ("RR", "Norte"), ("TO", "Norte"),
   ("AL", "Nordeste"), ("BA", "Nordeste"), ("CE", "Nordeste"),
   ("MA", "Nordeste"), ("PB", "Nordeste"), ("PE", "Nordeste"),
   ("PI", "Nordeste"), ("RN", "Nordeste"), ("SE", "Nordeste"),
   ("DF", "Centro-Oeste"), ("GO", "Centro-Oeste"), ("MT", "Centro-Oeste"),
   ("MS", "Centro-Oeste"),
   ("ES", "Sudeste"), ("MG", "Sudeste"), ("RJ", "Sudeste"), ("SP", "Sudeste"),
   ("PR", "Sul"), ("RS", "Sul"), ("SC", "Sul")]

/-- The `df_uf` construction of `src/Vista/app.py` lines 529–533: a row per
code of the geo map, left-merged with the per-region aggregates on the region
column, missing aggregates filled with `0`
(`merge(df_reg, on="Regiao", how="left")` then `fillna(0)`).  The aggregate
table comes from a `groupby`, so its region keys are unique and the left
merge keeps one row per code. -/
def expand_region_aggregate (aggs : List (String × ℚ))
    (geo : List (String × String)) : List (String × ℚ) :=
  geo.map (fun p => (p.1, (aggs.lookup p.2).getD 0))

/-- Decides the filter condition `Consumo > m + k·d` of `picos_industrial`
with `d = √v` the standard deviation, over `ℚ`: since `√v` is irrational in
general, the equivalent square comparison
`0 < x − m ∧ k²·v < (x − m)²` is decided (for `k ≥ 0`, `v ≥ 0` this is
exactly `x > m + k·√v`; see `exceeds_iff_real`). -/
def exceedsThreshold (x m k v : ℚ) : Bool :=
  decide (0 < x - m) && decide (k ^ 2 * v < (x - m) ^ 2)

/-- `detect_outliers`: the filter of `picos_industrial`
(`src/Api/routes/consumo_actual.py` lines 42–47):
`m = mean(measure); d = std(measure); records[measure > m + k*d]`.
The `k` parameter follows the spec's `detect_outliers(records, column, k)`
signature; the source hardcodes `k = 2` (see `picos_industrial` below).
When `std` is `NaN` (fewer than two records) every comparison with it is
false and the result is empty, as in pandas. -/
def detect_outliers {α : Type} (measure : α → ℚ) (k : ℚ)
    (records : List α) : List α :=
  match sampleVar (records.map measure) with
  | none => []
  | some v =>
    records.filter (fun r =>
      exceedsThreshold (measure r) (mediaQ (records.map measure)) k v)

/-- `picos_industrial` from `consumo_actual.py`: the outlier filter at the
hardcoded threshold `m + 2*d`. -/
def picos_industrial {α : Type} (measure : α → ℚ) (records : List α) :
    List α :=
  detect_outliers measure 2 records

/-- The record returned by `estadisticas` in `consumo_actual.py`:
`{"media", "mediana", "desviacion", "minimo", "maximo"}`.  Each field is
`none` exactly when pandas would return `NaN` for it.  `desviacion` holds the
square of the standard deviation (see `sampleVar`). -/
structure Estadisticas where
  media : Option ℚ
  mediana : Option ℚ
  desviacion : Option ℚ
  minimo : Option ℚ
  maximo : Option ℚ
  deriving DecidableEq, Repr

/-- `estadisticas(s)` from `src/Api/routes/consumo_actual.py` lines 20–27. -/
def estadisticas (s : List ℚ) : Estadisticas where
  media := if s.isEmpty then none else some (mediaQ s)
  mediana := if s.isEmpty then none else some (medianaQ s)
  desviacion := sampleVar s
  minimo := if s.isEmpty then none else some (minQ s)
  maximo := if s.isEmpty then none else some (maxQ s)

lemma foldl_min_le_init (t : List ℚ) (a : ℚ) : t.foldl min a ≤ a := by
  induction t generalizing a with
  | nil => exact le_refl a
  | cons b t ih => exact le_trans (ih (min a b)) (min_le_left a b)

lemma foldl_min_le_mem (t : List ℚ) (a x : ℚ) (hx : x ∈ t) : t.foldl min a ≤ x := by
  induction t generalizing a with
  | nil => cases hx
  | cons b t ih =>
    rcases List.mem_cons.mp hx with rfl | hx
    · exact le_trans (foldl_min_le_init t (min a x)) (min_le_right a x)
    · exact ih (min a b) hx

lemma init_le_foldl_max (t : List ℚ) (a : ℚ) : a ≤ t.foldl max a := by
  induction t generalizing a with
  | nil => exact le_refl a
  | cons b t ih => exact le_trans (le_max_left a b) (ih (max a b))

lemma mem_le_foldl_max (t : List ℚ) (a x : ℚ) (hx : x ∈ t) : x ≤ t.foldl max a := by
  induction t generalizing a with
  | nil => cases hx
  | cons b t ih =>
    rcases List.mem_cons.mp hx with rfl | hx
    · exact le_trans (le_max_right a x) (init_le_foldl_max t (max a x))
    · exact ih (max a b) hx

lemma minQ_le_mem (s : List ℚ) (x : ℚ) (hx : x ∈ s) : minQ s ≤ x := by
  match s with
  | [] => cases hx
  | a :: t =>
    rcases List.mem_cons.mp hx with rfl | hx
    · exact foldl_min_le_init t x
    · exact foldl_min_le_mem t a x hx

lemma mem_le_maxQ (s : List ℚ) (x : ℚ) (hx : x ∈ s) : x ≤ maxQ s := by
  match s with
  | [] => cases hx
  | a :: t =>
    rcases List.mem_cons.mp hx with rfl | hx
    · exact init_le_foldl_max t x
    · exact mem_le_foldl_max t a x hx

lemma minQ_le_mediaQ (s : List ℚ) (h : s ≠ []) : minQ s ≤ mediaQ s := by
  have hn : (0 : ℚ) < s.length := by
    have := List.length_pos.mpr h
    exact_mod_cast this
  have hsum : s.length • minQ s ≤ s.sum :=
    List.card_nsmul_le_sum s (minQ s) (fun x hx => minQ_le_mem s x hx)
  rw [nsmul_eq_mul] at hsum
  rw [mediaQ, le_div_iff₀ hn, mul_comm]
  exact hsum

lemma mediaQ_le_maxQ (s : List ℚ) (h : s ≠ []) : mediaQ s ≤ maxQ s := by
  have hn : (0 : ℚ) < s.length := by
    have := List.length_pos.mpr h
    exact_mod_cast this
  have hsum : s.sum ≤ s.length • maxQ s :=
    List.sum_le_card_nsmul s (maxQ s) (fun x hx => mem_le_maxQ s x hx)
  rw [nsmul_eq_mul] at hsum
  rw [mediaQ, div_le_iff₀ hn, mul_comm]
  exact hsum

lemma medianaQ_mem_bounds (s : List ℚ) (h : s ≠ []) :
    minQ s ≤ medianaQ s ∧ medianaQ s ≤ maxQ s := by
  have hperm := List.perm_insertionSort (α := ℚ) (· ≤ ·) s
  set t := s.insertionSort (· ≤ ·) with ht
  have hlen : t.length = s.length := hperm.length_eq
  have hpos : 0 < t.length := by
    rw [hlen]; exact List.length_pos.mpr h
  have hmem : ∀ i, i < t.length → minQ s ≤ t.getD i 0 ∧ t.getD i 0 ≤ maxQ s := by
    intro i hi
    rw [List.getD_eq_getElem t 0 hi]
    have hm : t[i] ∈ s := hperm.mem_iff.mp (List.getElem_mem hi)
    exact ⟨minQ_le_mem s _ hm, mem_le_maxQ s _ hm⟩
  rw [medianaQ]
  by_cases hpar : t.length % 2 = 1
  · simp only [← ht, hpar, if_pos]
    exact hmem (t.length / 2) (Nat.div_lt_self hpos (by norm_num))
  · simp only [← ht, hpar, if_neg, if_false]
    have h2 : t.getD (t.length / 2) 0 ∈ Set.Icc (minQ s) (maxQ s) := by
      have := hmem (t.length / 2) (Nat.div_lt_self hpos (by norm_num))
      exact ⟨this.1, this.2⟩
    have h1 : t.getD (t.length / 2 - 1) 0 ∈ Set.Icc (minQ s) (maxQ s) := by
      have hi : t.length / 2 - 1 < t.length :=
        lt_of_le_of_lt (Nat.sub_le _ _) (Nat.div_lt_self hpos (by norm_num))
      have := hmem (t.length / 2 - 1) hi
      exact ⟨this.1, this.2⟩
    obtain ⟨ha1, ha2⟩ := h1
    obtain ⟨hb1, hb2⟩ := h2
    constructor
    · linarith
    · linarith

lemma sum_filter_key_split {α : Type} (l : List α) (p : α → Bool) (m : α → ℚ) :
    ((l.filter p).map m).sum + ((l.filter (fun x => ! p x)).map m).sum =
      (l.map m).sum := by
  induction l with
  | nil => simp
  | cons a t ih =>
    cases hp : p a with
    | true =>
      simp only [List.filter_cons, hp, Bool.not_true, Bool.false_eq_true,
        if_true, if_false, List.map_cons, List.sum_cons]
      linarith [ih]
    | false =>
      simp only [List.filter_cons, hp, Bool.not_false, Bool.false_eq_true,
        if_true, if_false, List.map_cons, List.sum_cons]
      linarith [ih]

lemma sum_groups {α K : Type} [DecidableEq K] (ks : List K) :
    ∀ (l : List α) (key : α → K) (m : α → ℚ), ks.Nodup →
      (∀ x ∈ l, key x ∈ ks) →
      (ks.map (fun k => ((l.filter (fun x => key x = k)).map m).sum)).sum =
        (l.map m).sum := by
  induction ks with
  | nil =>
    intro l key m _ hcov
    cases l with
    | nil => simp
    | cons a t => exact absurd (hcov a (List.mem_cons_self a t)) (List.not_mem_nil _)
  | cons k ks ih =>
    intro l key m hnd hcov
    have hknotin : k ∉ ks := (List.nodup_cons.mp hnd).1
    have hndtail : ks.Nodup := (List.nodup_cons.mp hnd).2
    set l' := l.filter (fun x => ! decide (key x = k)) with hl'
    have htail : ∀ j ∈ ks,
        l.filter (fun x => key x = j) = l'.filter (fun x => key x = j) := by
      intro j hj
      have hjk : ¬ j = k := fun hc => hknotin (hc ▸ hj)
      rw [hl', List.filter_filter]
      apply List.filter_congr
      intro x _
      by_cases hx : key x = j
      · simp [hx, hjk]
      · simp [hx]
    have hcov' : ∀ x ∈ l', key x ∈ ks := by
      intro x hx
      rw [hl', List.mem_filter] at hx
      have hxl := hx.1
      have hxk : ¬ key x = k := by
        have := hx.2
        simpa using this
      rcases List.mem_cons.mp (hcov x hxl) with h | h
      · exact absurd h hxk
      · exact h
    rw [List.map_cons, List.sum_cons]
    have hmapeq :
        (ks.map (fun j => ((l.filter (fun x => key x = j)).map m).sum)) =
          (ks.map (fun j => ((l'.filter (fun x => key x = j)).map m).sum)) := by
      apply List.map_congr_left
      intro j hj
      rw [htail j hj]
    rw [hmapeq, ih l' key m hndtail hcov']
    rw [hl']
    exact sum_filter_key_split l (fun x => decide (key x = k)) m

lemma groupSum_sum_eq_filter_sum {K : Type} [LinearOrder K]
    (records : List (Option K × ℚ)) :
    ((groupSum records).map Prod.snd).sum =
      ((records.filter (fun r => r.1.isSome)).map Prod.snd).sum := by
  set l := records.filter (fun r => r.1.isSome) with hl
  set ks := (records.filterMap Prod.fst).dedup with hks
  rw [groupSum, List.map_map]
  have hperm : ((ks.insertionSort (· ≤ ·)).map
        (Prod.snd ∘ fun k =>
          (k, ((records.filter (fun r => r.1 = some k)).map Prod.snd).sum))).Perm
      (ks.map (Prod.snd ∘ fun k =>
        (k, ((records.filter (fun r => r.1 = some k)).map Prod.snd).sum))) :=
    (List.perm_insertionSort (· ≤ ·) ks).map _
  rw [hperm.sum_eq]
  have hfilter : ∀ k : K,
      records.filter (fun r => r.1 = some k) =
        l.filter (fun r => r.1 = some k) := by
    intro k
    rw [hl, List.filter_filter]
    apply List.filter_congr
    intro x _
    by_cases hx : x.1 = some k
    · simp [hx]
    · simp [hx]
  have hstep : (ks.map (Prod.snd ∘ fun k =>
        (k, ((records.filter (fun r => r.1 = some k)).map Prod.snd).sum))) =
      ((ks.map some).map (fun j =>
        ((l.filter (fun x => x.1 = j)).map Prod.snd).sum)) := by
    rw [List.map_map]
    apply List.map_congr_left
    intro k _
    show ((records.filter (fun r => r.1 = some k)).map Prod.snd).sum =
      ((l.filter (fun x => x.1 = some k)).map Prod.snd).sum
    rw [hfilter k]
  rw [hstep]
  apply sum_groups (ks.map some) l Prod.fst Prod.snd
  · exact (List.nodup_dedup _).map (Option.some_injective K)
  · intro x hx
    have hx' := hx
    rw [hl, List.mem_filter] at hx'
    obtain ⟨hxl, hxs⟩ := hx'
    obtain ⟨k, hk⟩ := Option.isSome_iff_exists.mp (by simpa using hxs)
    rw [List.mem_map]
    refine ⟨k, ?_, hk.symm⟩
    rw [hks, List.mem_dedup, List.mem_filterMap]
    exact ⟨x, hxl, hk⟩

lemma expand_lookup (aggs : List (String × ℚ)) (geo : List (String × String))
    (c : String) :
    (expand_region_aggregate aggs geo).lookup c =
      (geo.lookup c).map (fun r => (aggs.lookup r).getD 0) := by
  induction geo with
  | nil => rfl
  | cons p t ih =>
    obtain ⟨c', r'⟩ := p
    by_cases h : c = c'
    · subst h
      simp [expand_region_aggregate, List.lookup]
    · have hb : (c == c') = false := beq_false_of_ne h
      simp only [expand_region_aggregate, List.map_cons, List.lookup, hb]
      exact ih

lemma sampleVar_eq_some (s : List ℚ) (h : 2 ≤ s.length) :
    sampleVar s =
      some ((s.map (fun x => (x - mediaQ s) ^ 2)).sum / ((s.length : ℚ) - 1)) := by
  rw [sampleVar, if_pos h]

lemma sampleVar_nonneg (s : List ℚ) (v : ℚ) (hv : sampleVar s = some v) :
    0 ≤ v := by
  by_cases h : 2 ≤ s.length
  · rw [sampleVar_eq_some s h] at hv
    have hnum : 0 ≤ (s.map (fun x => (x - mediaQ s) ^ 2)).sum := by
      apply List.sum_nonneg
      intro a ha
      obtain ⟨x, _, rfl⟩ := List.mem_map.mp ha
      exact sq_nonneg _
    have hden : (0 : ℚ) ≤ (s.length : ℚ) - 1 := by
      have : (2 : ℚ) ≤ (s.length : ℚ) := by exact_mod_cast h
      linarith
    injection hv with h'
    rw [← h']
    exact div_nonneg hnum hden
  · rw [sampleVar, if_neg h] at hv
    exact absurd hv (by simp)

lemma exceeds_iff_real (x m k v : ℚ) (hk : 0 ≤ k) (hv : 0 ≤ v) :
    exceedsThreshold x m k v = true ↔
      ((m : ℝ) + (k : ℝ) * Real.sqrt ((v : ℚ) : ℝ) < ((x : ℚ) : ℝ)) := by
  set a : ℝ := (k : ℝ) * Real.sqrt ((v : ℚ) : ℝ) with ha
  have hann : 0 ≤ a := by
    apply mul_nonneg
    · exact_mod_cast hk
    · exact Real.sqrt_nonneg _
  have ha2 : a ^ 2 = ((k : ℚ) : ℝ) ^ 2 * ((v : ℚ) : ℝ) := by
    rw [ha, mul_pow, Real.sq_sqrt (by exact_mod_cast hv)]
  rw [exceedsThreshold, Bool.and_eq_true, decide_eq_true_eq, decide_eq_true_eq]
  constructor
  · rintro ⟨h1, h2⟩
    have h1' : (0 : ℝ) < ((x : ℚ) : ℝ) - ((m : ℚ) : ℝ) := by
      exact_mod_cast h1
    have h2' : ((k : ℚ) : ℝ) ^ 2 * ((v : ℚ) : ℝ) <
        (((x : ℚ) : ℝ) - ((m : ℚ) : ℝ)) ^ 2 := by
      exact_mod_cast h2
    have ht : a < ((x : ℚ) : ℝ) - ((m : ℚ) : ℝ) := by
      nlinarith [ha2, hann, h1', h2']
    linarith
  · intro h
    have ht : a < ((x : ℚ) : ℝ) - ((m : ℚ) : ℝ) := by linarith
    have h1' : (0 : ℝ) < ((x : ℚ) : ℝ) - ((m : ℚ) : ℝ) := lt_of_le_of_lt hann ht
    have h2' : a ^ 2 < (((x : ℚ) : ℝ) - ((m : ℚ) : ℝ)) ^ 2 := by
      nlinarith [hann, ht]
    rw [ha2] at h2'
    constructor
    · exact_mod_cast h1'
    · exact_mod_cast h2'

lemma Sx_closed (n : ℕ) : Sx n = (n : ℚ) * ((n : ℚ) - 1) / 2 := by
  induction n with
  | zero => simp [Sx]
  | succ m ih =>
    rw [Sx, Finset.sum_range_succ, ← Sx, ih]
    push_cast
    ring

lemma Sxx_closed (n : ℕ) :
    Sxx n = (n : ℚ) * ((n : ℚ) - 1) * (2 * (n : ℚ) - 1) / 6 := by
  induction n with
  | zero => simp [Sxx]
  | succ m ih =>
    rw [Sxx, Finset.sum_range_succ, ← Sxx, ih]
    push_cast
    ring

lemma den_pos (n : ℕ) (hn : 2 ≤ n) :
    0 < (n : ℚ) * Sxx n - Sx n ^ 2 := by
  have h2 : (2 : ℚ) ≤ (n : ℚ) := by exact_mod_cast hn
  rw [Sx_closed, Sxx_closed]
  have heq : (n : ℚ) * ((n : ℚ) * ((n : ℚ) - 1) * (2 * (n : ℚ) - 1) / 6) -
      ((n : ℚ) * ((n : ℚ) - 1) / 2) ^ 2 =
      (n : ℚ) ^ 2 * ((n : ℚ) - 1) * ((n : ℚ) + 1) / 12 := by
    ring
  rw [heq]
  have ha : (0 : ℚ) < (n : ℚ) ^ 2 := by nlinarith
  have hb : (0 : ℚ) < (n : ℚ) - 1 := by linarith
  have hc : (0 : ℚ) < (n : ℚ) + 1 := by linarith
  have h12 : (0 : ℚ) < 12 := by norm_num
  exact div_pos (mul_pos (mul_pos ha hb) hc) h12

lemma covnum_eq (s : List ℚ) (hn : (s.length : ℚ) ≠ 0) :
    (∑ i in Finset.range s.length,
        ((i : ℚ) - xbarSpec s.length) * (s.getD i 0 - ybarSpec s)) =
      Sxy s - Sx s.length * Sy s / (s.length : ℚ) := by
  set n := s.length with hlen
  have hexp : ∀ i ∈ Finset.range n,
      ((i : ℚ) - xbarSpec n) * (s.getD i 0 - ybarSpec s) =
        (i : ℚ) * s.getD i 0 - ybarSpec s * (i : ℚ) -
          xbarSpec n * s.getD i 0 + xbarSpec n * ybarSpec s := by
    intro i _
    ring
  rw [Finset.sum_congr rfl hexp]
  rw [Finset.sum_add_distrib, Finset.sum_sub_distrib, Finset.sum_sub_distrib,
    ← Finset.mul_sum, ← Finset.mul_sum, Finset.sum_const, Finset.card_range]
  rw [← Sxy, ← Sx, ← Sy, xbarSpec, ybarSpec, ← hlen]
  field_simp
  ring

lemma varnum_eq (n : ℕ) (hn : (n : ℚ) ≠ 0) :
    (∑ i in Finset.range n, ((i : ℚ) - xbarSpec n) ^ 2) =
      Sxx n - Sx n ^ 2 / (n : ℚ) := by
  have hexp : ∀ i ∈ Finset.range n,
      ((i : ℚ) - xbarSpec n) ^ 2 =
        (i : ℚ) ^ 2 - 2 * xbarSpec n * (i : ℚ) + xbarSpec n ^ 2 := by
    intro i _
    ring
  rw [Finset.sum_congr rfl hexp]
  rw [Finset.sum_add_distrib, Finset.sum_sub_distrib,
    ← Finset.mul_sum, Finset.sum_const, Finset.card_range]
  rw [← Sxx, ← Sx, xbarSpec]
  field_simp
  ring

lemma polyfitSlope_eq_slopeSpec (s : List ℚ) (h : 2 ≤ s.length) :
    polyfitSlope s = slopeSpec s := by
  set n := s.length with hlen
  have hn0 : (n : ℚ) ≠ 0 := by
    have : (2 : ℚ) ≤ (n : ℚ) := by exact_mod_cast h
    linarith
  have hn1 : (n : ℚ) - 1 ≠ 0 := by
    have : (2 : ℚ) ≤ (n : ℚ) := by exact_mod_cast h
    linarith
  have hD : (n : ℚ) * Sxx n - Sx n ^ 2 ≠ 0 := ne_of_gt (den_pos n h)
  have hvar : Sxx n - Sx n ^ 2 / (n : ℚ) ≠ 0 := by
    intro hc
    apply hD
    have : (n : ℚ) * (Sxx n - Sx n ^ 2 / (n : ℚ)) =
        (n : ℚ) * Sxx n - Sx n ^ 2 := by
      field_simp
      ring
    rw [← this, hc, mul_zero]
  rw [slopeSpec, covSpec, varxSpec, ← hlen, covnum_eq s hn0, varnum_eq n hn0,
    polyfitSlope, ← hlen]
  rw [div_div_div_cancel_right₀ hn1]
  rw [div_eq_div_iff hD hvar]
  field_simp
  ring

end Analizador

namespace Analizador

/-- C9: `describe` (here `estadisticas`) over zero records returns the defined
"no data" record — every statistic is the `NaN`/`none` empty-state value — and
does not raise: the function is total and its value at `[]` is this record. -/
theorem c9_estadisticas_empty_defined :
    estadisticas ([] : List ℚ) =
      { media := none, mediana := none, desviacion := none,
        minimo := none, maximo := none } := by
  rfl

/-- C6: the `desviacion` statistic is the sample standard deviation
(denominator `n−1`, pandas `ddof=1`), embedded by its square: on a two-element
sample `[a, b]` the squared deviation is `(b−a)²/1·(1/2)·2 = (b−a)²/2` (a
population denominator `n` would give `(b−a)²/4`); and on every one-element
sample the result is the defined `NaN` value `none`, not an exception. -/
theorem c6_desviacion_sample_nan :
    (∀ a b : ℚ, (estadisticas [a, b]).desviacion = some ((b - a) ^ 2 / 2)) ∧
      (∀ a : ℚ, (estadisticas [a]).desviacion = none) := by
  constructor
  · intro a b
    show sampleVar [a, b] = some ((b - a) ^ 2 / 2)
    simp only [sampleVar, mediaQ, List.sum_cons, List.sum_nil, List.length_cons,
      List.length_nil, List.map_cons, List.map_nil]
    norm_num
    ring
  · intro a
    rfl

/-- C1 counterexample: grouping is NOT sum-preserving when the grouping
column contains nulls.  On the single record whose grouping key is null and
whose measure is `5`, pandas `groupby` (default `dropna=True`) drops the row:
the grouped sums total `0` while the input measures total `5` — nulls do not
form their own group. -/
theorem c1_group_sum_null_dropped_counterexample :
    ((groupSum [((none : Option String), (5 : ℚ))]).map Prod.snd).sum ≠
      (([((none : Option String), (5 : ℚ))]).map Prod.snd).sum := by
  simp [groupSum]

/-- C1 (amended): `group_sum` is sum-preserving over the records whose
grouping key is non-null — the grouped sums always total the measure sum of
the rows with a non-null key — and hence, whenever the grouping column
contains no nulls, the grouped sums total the measure sum of the whole
ungrouped input. -/
theorem c1_group_sum_preserving_nonnull {K : Type} [LinearOrder K]
    (records : List (Option K × ℚ)) :
    ((groupSum records).map Prod.snd).sum =
        ((records.filter (fun r => r.1.isSome)).map Prod.snd).sum ∧
      ((∀ r ∈ records, r.1.isSome) →
        ((groupSum records).map Prod.snd).sum = (records.map Prod.snd).sum) := by
  refine ⟨groupSum_sum_eq_filter_sum records, fun hall => ?_⟩
  rw [groupSum_sum_eq_filter_sum records, List.filter_eq_self.mpr hall]

/-- Witness for `c1_group_sum_preserving_nonnull` at the spec's concrete
sample `[("Norte", 10), ("Norte", 20), ("Sul", 5)]`. -/
theorem c1_group_sum_preserving_nonnull_witness :
    (∀ r ∈ [((some "Norte" : Option String), (10 : ℚ)),
        (some "Norte", 20), (some "Sul", 5)], r.1.isSome) ∧
      ((groupSum [((some "Norte" : Option String), (10 : ℚ)),
          (some "Norte", 20), (some "Sul", 5)]).map Prod.snd).sum =
        (([((some "Norte" : Option String), (10 : ℚ)),
          (some "Norte", 20), (some "Sul", 5)]).map Prod.snd).sum :=
  ⟨by decide,
    (c1_group_sum_preserving_nonnull
      [((some "Norte" : Option String), (10 : ℚ)),
        (some "Norte", 20), (some "Sul", 5)]).2 (by decide)⟩

/-- C2: the source's trend estimator has no guard for series of fewer than
two points: on the one-element series `[5]` it still takes `np.polyfit`'s
ordinary return path (a degenerate rank-deficient fit), so it does not fail
with `InsufficientData` — contradicting the spec's stated contract. -/
theorem c2_tendencia_unguarded_on_singleton :
    tendencia [(5 : ℚ)] = Except.ok (polyfitSlope [(5 : ℚ)]) ∧
      ∀ e : TrendError, tendencia [(5 : ℚ)] ≠ Except.error e :=
  ⟨rfl, fun _ h => Except.noConfusion h⟩

/-- C3: for every series of at least two values, the `np.polyfit` degree-1
slope equals the spec's closed form `cov(x,y)/var(x)` with `x = 0..n−1`; and
on the concrete series `[1,2,3,4,5]` the slope is `1`. -/
theorem c3_slope_ols_closed_form :
    (∀ s : List ℚ, 2 ≤ s.length → polyfitSlope s = slopeSpec s) ∧
      polyfitSlope [1, 2, 3, 4, 5] = 1 :=
  ⟨fun s h => polyfitSlope_eq_slopeSpec s h, by
    norm_num [polyfitSlope, Sxy, Sx, Sxx, Sy, Finset.sum_range_succ,
      Finset.sum_range_zero, List.getD_cons_zero, List.getD_cons_succ]⟩

/-- Witness for the universally quantified half of `c3_slope_ols_closed_form`
at the concrete series `[1,2,3,4,5]`. -/
theorem c3_slope_ols_closed_form_witness :
    2 ≤ ([1, 2, 3, 4, 5] : List ℚ).length ∧
      polyfitSlope [1, 2, 3, 4, 5] = slopeSpec [1, 2, 3, 4, 5] :=
  ⟨by decide, c3_slope_ols_closed_form.1 [1, 2, 3, 4, 5] (by decide)⟩

/-- C4: for every record list with at least two elements and every threshold
`k ≥ 0`, `detect_outliers` returns exactly the records whose measure is
strictly greater than `mean + k·stddev` (upper tail only, strict), as an
order-preserving sublist of the input (the input list itself is untouched —
the operation is a pure filter); the source's `picos_industrial` is the
instance at the hardcoded `k = 2`. -/
theorem c4_detect_outliers_filter {α : Type} (measure : α → ℚ) (k : ℚ)
    (records : List α) (hk : 0 ≤ k) (hlen : 2 ≤ records.length) :
    (∀ r, r ∈ detect_outliers measure k records ↔
        r ∈ records ∧
          ((mediaQ (records.map measure) : ℝ) +
              (k : ℝ) * Real.sqrt (((sampleVar (records.map measure)).getD 0 : ℚ) : ℝ) <
            ((measure r : ℚ) : ℝ))) ∧
      (detect_outliers measure k records).Sublist records ∧
      picos_industrial measure records = detect_outliers measure 2 records := by
  have hlen' : 2 ≤ (records.map measure).length := by simpa using hlen
  cases hsv : sampleVar (records.map measure) with
  | none =>
    rw [sampleVar_eq_some _ hlen'] at hsv
    exact absurd hsv (by simp)
  | some v =>
    have hvnn : 0 ≤ v := sampleVar_nonneg _ v hsv
    have hdet : detect_outliers measure k records =
        records.filter (fun r =>
          exceedsThreshold (measure r) (mediaQ (records.map measure)) k v) := by
      rw [detect_outliers, hsv]
    refine ⟨?_, ?_, rfl⟩
    · intro r
      rw [hdet, List.mem_filter, Option.getD_some]
      exact and_congr_right (fun _ =>
        exceeds_iff_real (measure r) (mediaQ (records.map measure)) k v hk hvnn)
    · rw [hdet]
      exact List.filter_sublist records

/-- Witness for `c4_detect_outliers_filter` with `k = 1` over the measures
`[0, 0, 0, 8]` (mean `2`, sample variance `16`, stddev `4`). -/
theorem c4_detect_outliers_filter_witness :
    (0 : ℚ) ≤ 1 ∧ 2 ≤ ([0, 0, 0, 8] : List ℚ).length ∧
      ((∀ r, r ∈ detect_outliers id 1 ([0, 0, 0, 8] : List ℚ) ↔
          r ∈ ([0, 0, 0, 8] : List ℚ) ∧
            ((mediaQ (([0, 0, 0, 8] : List ℚ).map id) : ℝ) +
                ((1 : ℚ) : ℝ) *
                  Real.sqrt (((sampleVar (([0, 0, 0, 8] : List ℚ).map id)).getD 0 : ℚ) : ℝ) <
              ((id r : ℚ) : ℝ))) ∧
        (detect_outliers id 1 ([0, 0, 0, 8] : List ℚ)).Sublist
          ([0, 0, 0, 8] : List ℚ) ∧
        picos_industrial id ([0, 0, 0, 8] : List ℚ) =
          detect_outliers id 2 ([0, 0, 0, 8] : List ℚ)) :=
  ⟨by decide, by decide,
    c4_detect_outliers_filter id 1 ([0, 0, 0, 8] : List ℚ) (by decide) (by decide)⟩

/-- C5: for every non-empty numeric input, the statistics record satisfies
`min ≤ mean ≤ max` and `min ≤ median ≤ max`. -/
theorem c5_min_mean_median_max (s : List ℚ) (h : s ≠ []) :
    (estadisticas s).minimo.getD 0 ≤ (estadisticas s).media.getD 0 ∧
      (estadisticas s).media.getD 0 ≤ (estadisticas s).maximo.getD 0 ∧
      (estadisticas s).minimo.getD 0 ≤ (estadisticas s).mediana.getD 0 ∧
      (estadisticas s).mediana.getD 0 ≤ (estadisticas s).maximo.getD 0 := by
  have hne : s.isEmpty = false := by
    cases s with
    | nil => exact absurd rfl h
    | cons a t => rfl
  simp only [estadisticas, hne, Bool.false_eq_true, if_false, Option.getD_some]
  obtain ⟨hm1, hm2⟩ := medianaQ_mem_bounds s h
  exact ⟨minQ_le_mediaQ s h, mediaQ_le_maxQ s h, hm1, hm2⟩

/-- C7: `distinct_values` drops null entries and returns the distinct values
in ascending lexicographic order: the result is sorted and duplicate-free and
holds a string exactly when the input holds it non-null; on the spec's region
column `["Sul", "Norte", "Norte", None, "Sul"]` it returns
`["Norte", "Sul"]`. -/
theorem c7_distinct_values_sorted_nonnull :
    (∀ l : List (Option String),
        (distinct_values l).Sorted (· ≤ ·) ∧ (distinct_values l).Nodup ∧
          ∀ x : String, x ∈ distinct_values l ↔ some x ∈ l) ∧
      distinct_values [some "Sul", some "Norte", some "Norte", none, some "Sul"] =
        ["Norte", "Sul"] := by
  constructor
  · intro l
    refine ⟨List.sorted_insertionSort _ _, ?_, ?_⟩
    · exact (List.perm_insertionSort _ _).nodup_iff.mpr (List.nodup_dedup _)
    · intro x
      rw [distinct_values, List.mem_insertionSort, List.mem_dedup,
        List.mem_filterMap]
      constructor
      · rintro ⟨a, ha, rfl⟩
        exact ha
      · intro hx
        exact ⟨some x, hx, rfl⟩
  · have h1 : (([some "Sul", some "Norte", some "Norte", none,
        some "Sul"].filterMap id)).dedup = ["Norte", "Sul"] := by
      decide
    show ((([some "Sul", some "Norte", some "Norte", none,
        some "Sul"].filterMap id)).dedup).insertionSort (· ≤ ·) =
      ["Norte", "Sul"]
    rw [h1]
    have h2 : ("Norte" : String) ≤ "Sul" := by
      rw [String.le_iff_toList_le]
      decide
    simp [List.insertionSort, List.orderedInsert, h2]

/-- C8: the geo expansion is a pure broadcast: every code of the geo map is
assigned the aggregate of its region — `0` when the region has no aggregate
entry — so any two codes of the same region receive identical values. -/
theorem c8_expand_region_broadcast (aggs : List (String × ℚ))
    (geo : List (String × String)) :
    (∀ c : String,
        (expand_region_aggregate aggs geo).lookup c =
          (geo.lookup c).map (fun r => (aggs.lookup r).getD 0)) ∧
      (∀ c₁ c₂ r : String, geo.lookup c₁ = some r → geo.lookup c₂ = some r →
        (expand_region_aggregate aggs geo).lookup c₁ =
          (expand_region_aggregate aggs geo).lookup c₂) := by
  refine ⟨fun c => expand_lookup aggs geo c, ?_⟩
  intro c₁ c₂ r h₁ h₂
  rw [expand_lookup aggs geo c₁, expand_lookup aggs geo c₂, h₁, h₂]

/-- Witness for `c8_expand_region_broadcast`: with aggregates
`[("Sudeste", 100), ("Sul", 7)]` over the real UF table, the two Sudeste
codes `"RJ"` and `"SP"` receive the same value. -/
theorem c8_expand_region_broadcast_witness :
    uf_to_regiao.lookup "RJ" = some "Sudeste" ∧
      uf_to_regiao.lookup "SP" = some "Sudeste" ∧
      (expand_region_aggregate [("Sudeste", 100), ("Sul", 7)]
          uf_to_regiao).lookup "RJ" =
        (expand_region_aggregate [("Sudeste", 100), ("Sul", 7)]
          uf_to_regiao).lookup "SP" :=
  ⟨by decide, by decide,
    (c8_expand_region_broadcast [("Sudeste", 100), ("Sul", 7)]
      uf_to_regiao).2 "RJ" "SP" "Sudeste" (by decide) (by decide)⟩

/-- C10: the static geo table maps exactly the 27 UF codes (each exactly
once, in the source's order) into exactly the five region names
`Norte, Nordeste, Centro-Oeste, Sudeste, Sul`; as a Lean constant it is
immutable, matching the source's fixed literal. -/
theorem c10_uf_to_regiao_total_27_5 :
    uf_to_regiao.length = 27 ∧
      uf_to_regiao.map Prod.fst =
        ["AC", "AP", "AM", "PA", "RO", "RR", "TO",
         "AL", "BA", "CE", "MA", "PB", "PE", "PI", "RN", "SE",
         "DF", "GO", "MT", "MS",
         "ES", "MG", "RJ", "SP",
         "PR", "RS", "SC"] ∧
      (uf_to_regiao.map Prod.fst).Nodup ∧
      (uf_to_regiao.map Prod.snd).dedup =
        ["Norte", "Nordeste", "Centro-Oeste", "Sudeste", "Sul"] := by
  refine ⟨rfl, rfl, ?_, ?_⟩ <;> decide

/-- Witness for `c5_min_mean_median_max` at the spec's concrete sample
`[10, 20, 5]`. -/
theorem c5_min_mean_median_max_witness :
    ([10, 20, 5] : List ℚ) ≠ [] ∧
      ((estadisticas [10, 20, 5]).minimo.getD 0 ≤ (estadisticas [10, 20, 5]).media.getD 0 ∧
        (estadisticas [10, 20, 5]).media.getD 0 ≤ (estadisticas [10, 20, 5]).maximo.getD 0 ∧
        (estadisticas [10, 20, 5]).minimo.getD 0 ≤ (estadisticas [10, 20, 5]).mediana.getD 0 ∧
        (estadisticas [10, 20, 5]).mediana.getD 0 ≤ (estadisticas [10, 20, 5]).maximo.getD 0) :=
  ⟨by decide, c5_min_mean_median_max [10, 20, 5] (by decide)⟩

end Analizador
